import Mathlib

/-
Verification development for the OpenFluke/construct Go package.

The development shallowly embeds the package's protocol and cube logic:

* `readResponse`, `sendJSONMessage` (protocol.go) are modelled over finite
  byte streams (`List Char`).  A finite stream models everything the
  connection delivers before the read loop's first failing read (end of
  stream / the 3-second read deadline); `bufio.Reader.ReadString('-')`
  returns the bytes up to and including the first `'-'`, or the remaining
  bytes together with an error when no `'-'` arrives, and the Go loop
  discards that final errored chunk.
* Cube operations (cube.go: `Spawn`, `Despawn`, `PulseWithModel`,
  `RefreshPosition`) are modelled as pure functions over an explicit cube
  state, with the network's behaviour (write success, the unmarshalled
  response) supplied as oracle parameters, and the performed network
  operations returned as an explicit trace.  `float64` values are
  modelled as rationals; `encoding/json` unmarshalling of a response is
  external library code and enters the model as its outcome
  (an optional map from string keys to JSON values).
* `DestroyAllCubes` (construct.go) is modelled by the number of
  list-then-despawn loop iterations it performs against a per-attempt
  oracle.
-/

namespace Construct

/-! ## Byte-level framing (protocol.go) -/

/-- ASCII whitespace recognised by the model of Go's `strings.TrimSpace`
(the payloads in this development are ASCII). -/
def isSpaceC (c : Char) : Bool :=
  c = ' ' || c = '\t' || c = '\n' || c = '\r'

/-- Model of `strings.TrimSpace`: drop leading and trailing whitespace. -/
def trimL (s : List Char) : List Char :=
  ((s.dropWhile isSpaceC).reverse.dropWhile isSpaceC).reverse

/-- Model of `strings.ReplaceAll(s, d, "")`: remove every occurrence of
`d`, scanning left to right, non-overlapping. -/
def replaceAllL (d : List Char) : List Char → List Char
  | [] => []
  | a :: s =>
    if h : d ≠ [] ∧ d <+: (a :: s) then
      replaceAllL d ((a :: s).drop d.length)
    else
      a :: replaceAllL d s
termination_by s => s.length
decreasing_by
  · simp only [List.length_drop]
    have hd : 0 < d.length := List.length_pos.mpr h.1
    simp only [List.length_cons]
    omega
  · simp

/-- Model of one `bufio.Reader.ReadString('-')` call on the remaining
stream: `some (chunk, rest)` when a `'-'` is found (`chunk` ends with it),
`none` when the read errors first (end of stream / deadline) — in which
case the Go code discards the partially read data. -/
def readStringDash : List Char → Option (List Char × List Char)
  | [] => none
  | c :: rest =>
    if c = '-' then some ([c], rest)
    else
      match readStringDash rest with
      | some (chunk, r) => some (c :: chunk, r)
      | none => none

theorem readStringDash_some_append {s chunk rest : List Char}
    (h : readStringDash s = some (chunk, rest)) : chunk ++ rest = s := by
  induction s generalizing chunk rest with
  | nil => simp [readStringDash] at h
  | cons a t ih =>
    by_cases ha : a = '-'
    · simp [readStringDash, ha] at h
      simp [← h.1, ← h.2, ha]
    · simp only [readStringDash, if_neg ha] at h
      cases hrec : readStringDash t with
      | none => rw [hrec] at h; simp at h
      | some p =>
        obtain ⟨c0, r0⟩ := p
        rw [hrec] at h
        simp at h
        obtain ⟨h1, h2⟩ := h
        have := ih hrec
        rw [← h1, ← h2]
        simpa using this

theorem readStringDash_rest_length {s chunk rest : List Char}
    (h : readStringDash s = some (chunk, rest)) : rest.length < s.length := by
  have happ := readStringDash_some_append h
  have hchunk : chunk ≠ [] := by
    induction s generalizing chunk rest with
    | nil => simp [readStringDash] at h
    | cons a t ih =>
      by_cases ha : a = '-'
      · simp [readStringDash, ha] at h
        intro hn; rw [hn] at h; simp at h
      · simp only [readStringDash, if_neg ha] at h
        cases hrec : readStringDash t with
        | none => rw [hrec] at h; simp at h
        | some p =>
          obtain ⟨c0, r0⟩ := p
          rw [hrec] at h
          simp at h
          intro hn; rw [hn] at h; simp at h
  have : chunk.length + rest.length = s.length := by
    rw [← happ]; simp
  have : 0 < chunk.length := List.length_pos.mpr hchunk
  omega

theorem readStringDash_last {s chunk rest : List Char}
    (h : readStringDash s = some (chunk, rest)) :
    chunk.getLast? = some '-' ∧ '-' ∉ chunk.dropLast := by
  induction s generalizing chunk rest with
  | nil => simp [readStringDash] at h
  | cons a t ih =>
    by_cases ha : a = '-'
    · simp [readStringDash, ha] at h
      rw [← h.1]
      simp [ha]
    · simp only [readStringDash, if_neg ha] at h
      cases hrec : readStringDash t with
      | none => rw [hrec] at h; simp at h
      | some p =>
        obtain ⟨c0, r0⟩ := p
        rw [hrec] at h
        simp at h
        obtain ⟨⟨hl, hnd⟩, _⟩ := And.intro (ih hrec) h
        obtain ⟨h1, h2⟩ := h
        have hc0 : c0 ≠ [] := by
          intro hn; rw [hn] at hl; simp at hl
        constructor
        · rw [← h1]
          cases c0 with
          | nil => exact absurd rfl hc0
          | cons x xs => rw [List.getLast?_cons_cons]; exact hl
        · rw [← h1]
          have : (a :: c0).dropLast = a :: c0.dropLast := by
            cases c0 with
            | nil => exact absurd rfl hc0
            | cons x xs => rfl
          rw [this]
          intro hmem
          rcases List.mem_cons.mp hmem with hcase | hcase
          · exact ha hcase.symm
          · exact hnd hcase

theorem readStringDash_none {s : List Char}
    (h : readStringDash s = none) : '-' ∉ s := by
  induction s with
  | nil => simp
  | cons a t ih =>
    by_cases ha : a = '-'
    · simp [readStringDash, ha] at h
    · simp only [readStringDash, if_neg ha] at h
      cases hrec : readStringDash t with
      | none =>
        intro hmem
        rcases List.mem_cons.mp hmem with hcase | hcase
        · exact ha hcase.symm
        · exact ih hrec hcase
      | some p => obtain ⟨c0, r0⟩ := p; rw [hrec] at h; simp at h

/-- The successive chunks delivered by `ReadString('-')` on a finite
stream (the trailing errored read's data is not among them, as the Go
loop discards it). -/
def dashChunks (s : List Char) : List (List Char) :=
  match h : readStringDash s with
  | none => []
  | some (chunk, rest) => chunk :: dashChunks rest
termination_by s.length
decreasing_by exact readStringDash_rest_length h

/-- The accumulation loop of `readResponse` (protocol.go lines 248-257):
read a chunk; stop discarding it on a read error; append it and stop if
it contains the delimiter; otherwise continue. -/
def readLoop (d : List Char) (s : List Char) (acc : List Char) : List Char :=
  match h : readStringDash s with
  | none => acc
  | some (chunk, rest) =>
    if d <:+: chunk then acc ++ chunk
    else readLoop d rest (acc ++ chunk)
termination_by s.length
decreasing_by exact readStringDash_rest_length h

/-- Model of `readResponse` (protocol.go): run the read loop on the
stream, remove every occurrence of the delimiter, trim whitespace, and
return with a `none` error — the function returns `nil` for the error on
every path. -/
def readResponse (d : List Char) (s : List Char) : List Char × Option Unit :=
  (trimL (replaceAllL d (readLoop d s [])), none)

/-- Model of `sendJSONMessage` (protocol.go): the bytes written are the
`json.Marshal` serialization of the message followed by the delimiter;
the serialization enters the model as the `payload` parameter. -/
def sendJSONMessage (payload d : List Char) : List Char :=
  payload ++ d

/-! ## JSON values (the outcome of `encoding/json` unmarshalling into
`map[string]interface{}`: numbers arrive as `float64`, modelled as `ℚ`) -/

inductive JValue where
  | null : JValue
  | bool (b : Bool) : JValue
  | num (q : ℚ) : JValue
  | str (s : String) : JValue
  | arr (elems : List JValue) : JValue
  | obj (fields : List (String × JValue)) : JValue

/-- Go map lookup `state[key]` on an unmarshalled JSON object. -/
def lookupJ (key : String) : List (String × JValue) → Option JValue
  | [] => none
  | (k, v) :: rest => if k = key then some v else lookupJ key rest

/-- Model of `toStringArray` (protocol.go): `nil` and non-array values
give the empty list; in an array, only string entries are kept. -/
def toStringArray : Option JValue → List String
  | some (.arr xs) =>
    xs.filterMap (fun x => match x with | .str s => some s | _ => none)
  | _ => []

/-! ## Cube handle (cube.go) -/

inductive PErr where
  | noConnection : PErr
  | connectFailed : PErr
  | authFailed : PErr
  | sendFailed : PErr
  | parseError : PErr
  | invalidPosition : PErr
  | outputTooShort : PErr
deriving DecidableEq

/-- The `Cube` struct (construct.go lines 13-25).  The `Model` field is
the externally owned decision function and is passed to `pulseWithModel`
as a function argument; `conn` is the owned connection, `none` for Go's
`nil`, `some k` for a live handle `k`. -/
structure CubeM where
  name : String
  position : List ℚ
  unitName : String
  serverAddr : String
  authPass : String
  delimiter : String
  clampMin : ℚ
  clampMax : ℚ
  debug : Bool
  conn : Option Nat
deriving DecidableEq

inductive Msg where
  | applyForce (force : List ℚ) : Msg
  | getCubeState : Msg
  | getCubeList : Msg
  | spawnCube (name : String) (position rotation : List ℚ) (isBase : Bool) : Msg
  | despawnCube (name : String) : Msg
  | freezeCube (name : String) (freeze : Bool) : Msg
deriving DecidableEq

/-- One network operation performed on a connection, recorded so the
theorems can speak about which I/O an operation performs. -/
inductive NetOp where
  | send (m : Msg) : NetOp
  | sendRaw (s : String) : NetOp
  | recv : NetOp
deriving DecidableEq

/-- The clamp of one force component in `PulseWithModel` (cube.go lines
364-370): two successive `if` statements, not early returns. -/
def pulseClamp (cmin cmax v : ℚ) : ℚ :=
  let v1 := if v > cmax then cmax else v
  if v1 < cmin then cmin else v1

/-- The force vector built by `PulseWithModel` from the first three
components of the decision-function output. -/
def pulseForce (c : CubeM) (output : List ℚ) : List ℚ :=
  (output.take 3).map (pulseClamp c.clampMin c.clampMax)

/-- Oracle for the network behaviour seen by one pulse/refresh: whether
each write succeeds, and the outcome of `json.Unmarshal` on the framed
`get_cube_state` response. -/
structure NetEnv where
  sendApplyForceOk : Bool
  sendStateReqOk : Bool
  stateParse : Option (List (String × JValue))

/-- Component-wise update used by `RefreshPosition` (cube.go lines
410-414): a component is overwritten only when the type assertion
`pos[i].(float64)` succeeds, i.e. only when the entry is a JSON number. -/
def updComp (o : ℚ) (p : JValue) : ℚ :=
  match p with
  | .num q => q
  | _ => o

/-- The new local position: `Position` is a 3-vector and the loop writes
indices 0..2. -/
def updatePos (old : List ℚ) (pos : List JValue) : List ℚ :=
  old.zipWith updComp pos

/-- Model of `RefreshPosition` (cube.go lines 385-416).  The
`readResponse` call never returns an error (see `readResponse`), so the
read-failure branch of the source is unreachable and has no counterpart
here; the unmarshal outcome is `env.stateParse`. -/
def refreshPosition (env : NetEnv) (c : CubeM) :
    Except PErr CubeM × List NetOp :=
  match c.conn with
  | none => (.error .noConnection, [])
  | some _ =>
    if env.sendStateReqOk then
      match env.stateParse with
      | none => (.error .parseError, [.send .getCubeState, .recv])
      | some state =>
        match lookupJ "position" state with
        | some (.arr pos) =>
          if pos.length = 3 then
            (.ok { c with position := updatePos c.position pos },
             [.send .getCubeState, .recv])
          else (.error .invalidPosition, [.send .getCubeState, .recv])
        | _ => (.error .invalidPosition, [.send .getCubeState, .recv])
    else (.error .sendFailed, [.send .getCubeState])

/-- Model of `PulseWithModel` (cube.go lines 347-383).  `model` is the
externally supplied decision function (`c.Model.Forward` then
`GetOutput`), applied to the current 3-component position. -/
def pulseWithModel (env : NetEnv) (model : List ℚ → List ℚ) (c : CubeM) :
    Except PErr CubeM × List NetOp :=
  match c.conn with
  | none => (.error .noConnection, [])
  | some _ =>
    let output := model (c.position.take 3)
    if output.length < 3 then (.error .outputTooShort, [])
    else
      let force := pulseForce c output
      if env.sendApplyForceOk then
        match refreshPosition env c with
        | (r, t) => (r, .send (.applyForce force) :: t)
      else (.error .sendFailed, [.send (.applyForce force)])

deriving instance DecidableEq for Except

/-- Oracle for the writes performed by `Spawn`. -/
structure SpawnEnv where
  dialOk : Bool
  authWriteOk : Bool
  spawnWriteOk : Bool

/-- Outcome of a `Spawn` call: the result, the cube state afterwards,
whether this call opened a TCP connection, and whether it closed that
connection again. -/
structure SpawnOutcome where
  res : Except PErr Unit
  cube : CubeM
  opened : Bool
  closed : Bool
deriving DecidableEq

/-- Model of `Spawn` (cube.go lines 290-319), with `k` the handle of the
freshly dialled connection.  Note the source stores `c.conn = conn`
*before* sending `spawn_cube`, and on a failed spawn write it calls
`c.conn.Close()` without resetting the field. -/
def spawn (env : SpawnEnv) (k : Nat) (c : CubeM) : SpawnOutcome :=
  if env.dialOk then
    if env.authWriteOk then
      let c1 : CubeM := { c with conn := some k }
      if env.spawnWriteOk then
        ⟨.ok (), { c1 with name := c1.name ++ "_BASE" }, true, false⟩
      else
        ⟨.error .sendFailed, c1, true, true⟩
    else
      ⟨.error .authFailed, c, true, true⟩
  else
    ⟨.error .connectFailed, c, false, false⟩

/-- Oracle for the writes performed by `Despawn`. -/
structure DespawnEnv where
  dialOk : Bool
  authWriteOk : Bool
  sendOk : Bool

/-- Model of `Despawn` (cube.go lines 321-345): a *separate* short-lived
connection is dialled; the cube state — in particular `conn` — is never
modified, in any branch. -/
def despawnCube (env : DespawnEnv) (c : CubeM) :
    Except PErr CubeM × List NetOp :=
  if env.dialOk then
    if env.authWriteOk then
      if env.sendOk then
        (.ok c, [.sendRaw (c.authPass ++ c.delimiter), .recv,
                 .send (.despawnCube c.name)])
      else
        (.error .sendFailed, [.sendRaw (c.authPass ++ c.delimiter), .recv,
                              .send (.despawnCube c.name)])
    else (.error .authFailed, [.sendRaw (c.authPass ++ c.delimiter)])
  else (.error .connectFailed, [])

/-! ## DestroyAllCubes (construct.go lines 58-110) -/

/-- Oracle for one iteration of the destroy loop: whether the
`get_cube_list` write succeeds and the outcome of `json.Unmarshal` on
the framed reply (`none` = unmarshal error); `readResponse` itself never
fails. -/
structure AttemptEnv where
  sendListOk : Bool
  parsed : Option (List (String × JValue))

/-- The cube-name list one attempt obtains: `none` when the request
write or the unmarshal failed (either aborts the whole operation). -/
def attemptCubes (e : AttemptEnv) : Option (List String) :=
  if e.sendListOk then
    e.parsed.map (fun st => toStringArray (lookupJ "cubes" st))
  else none

/-- `true` iff the attempt obtains a non-empty cube list (the loop then
despawns each cube and retries). -/
def nonemptyOutcomeB (e : AttemptEnv) : Bool :=
  match attemptCubes e with
  | some (_ :: _) => true
  | _ => false

/-- `true` iff the attempt obtains an empty cube list (the loop then
breaks out entirely). -/
def emptyOutcomeB (e : AttemptEnv) : Bool :=
  match attemptCubes e with
  | some [] => true
  | _ => false

/-- The retry loop of `DestroyAllCubes` (`for attempt := 1; attempt <=
5`), counting the iterations whose body runs: an iteration either aborts
the operation (failed write/unmarshal), breaks on an empty list, or
despawns every listed cube and continues. -/
def destroyGo (env : Nat → AttemptEnv) (attempt : Nat) : Nat :=
  if 5 < attempt then 0
  else
    match attemptCubes (env attempt) with
    | none => 1
    | some [] => 1
    | some (_ :: _) => 1 + destroyGo env (attempt + 1)
termination_by 6 - attempt

/-- Oracle for the connect and auth write preceding the retry loop. -/
structure DialEnv where
  dialOk : Bool
  authWriteOk : Bool

/-- Number of list-then-despawn iterations `DestroyAllCubes` performs:
zero when connect or the auth write fails, otherwise the retry loop runs
starting at attempt 1. -/
def destroyAttempts (denv : DialEnv) (env : Nat → AttemptEnv) : Nat :=
  if denv.dialOk then
    if denv.authWriteOk then destroyGo env 1 else 0
  else 0

/-! ## Concrete instances used by witnesses and counterexamples -/

/-- The example protocol's delimiter (`example/helloworld`). -/
def dProto : List Char := "<???DONE???---".data

/-- A delimiter with no `'-'` at all. -/
def dEnd : List Char := "END".data

/-- The serialized form of the message `Message\x7b"type": "get_cube_list"\x7d`
(Go's `json.Marshal` output). -/
def pList : List Char := "\x7b\"type\":\"get_cube_list\"\x7d".data

/-- A cube as configured by the `helloworld` example, before spawning. -/
def cubeEx : CubeM :=
  { name := "cube_hello_0"
    position := [0, 120, 10]
    unitName := "HelloUnit"
    serverAddr := "localhost:14000"
    authPass := "my_secure_password"
    delimiter := "<???DONE???---"
    clampMin := -20
    clampMax := 20
    debug := false
    conn := none }

/-- The same cube holding the connection it acquired from a successful
spawn. -/
def cubeConn : CubeM := { cubeEx with conn := some 0 }

/-- A network oracle on which every write succeeds and the state
response parses to `\x7b"position": [1, 2, 3]\x7d`. -/
def envOk : NetEnv :=
  { sendApplyForceOk := true
    sendStateReqOk := true
    stateParse := some [("position", .arr [.num 1, .num 2, .num 3])] }

/-- A decision function returning a constant 4-component output with
out-of-range first and second components. -/
def modelEx : List ℚ → List ℚ := fun _ => [25, -25, 5, 9]

/-- A destroy-loop oracle always returning the one-element cube list
`["cube_hello_0_BASE"]`. -/
def attemptNonempty : AttemptEnv :=
  { sendListOk := true
    parsed := some [("cubes", .arr [.str "cube_hello_0_BASE"])] }

/-- A parsed `position` array with a non-numeric middle entry. -/
def posMixed : List JValue := [.num 5, .str "x", .num 7]

/-- A parsed `get_cube_state` response whose position array is
`posMixed`. -/
def stateMixed : List (String × JValue) := [("position", .arr posMixed)]

/-- A network oracle delivering `stateMixed` as the state response. -/
def envMixed : NetEnv :=
  { sendApplyForceOk := true
    sendStateReqOk := true
    stateParse := some stateMixed }

theorem dashChunks_eq_none {s : List Char} (h : readStringDash s = none) :
    dashChunks s = [] := by
  rw [dashChunks]
  split
  · rfl
  · rename_i c r heq; rw [h] at heq; exact absurd heq (by simp)

theorem dashChunks_eq_some {s c r : List Char}
    (h : readStringDash s = some (c, r)) :
    dashChunks s = c :: dashChunks r := by
  rw [dashChunks]
  split
  · rename_i heq; rw [h] at heq; exact absurd heq (by simp)
  · rename_i c' r' heq; rw [h] at heq; simp at heq; rw [heq.1, heq.2]

theorem readLoop_eq_none {d s acc : List Char} (h : readStringDash s = none) :
    readLoop d s acc = acc := by
  rw [readLoop]
  split
  · rfl
  · rename_i c r heq; rw [h] at heq; exact absurd heq (by simp)

theorem readLoop_eq_some {d s acc c r : List Char}
    (h : readStringDash s = some (c, r)) :
    readLoop d s acc =
      if d <:+: c then acc ++ c else readLoop d r (acc ++ c) := by
  rw [readLoop]
  split
  · rename_i heq; rw [h] at heq; exact absurd heq (by simp)
  · rename_i c' r' heq; rw [h] at heq; simp at heq; rw [heq.1, heq.2]

theorem mem_of_getLast?_eq {l : List Char} {a : Char}
    (h : l.getLast? = some a) : a ∈ l := by
  obtain ⟨hne, heq⟩ := List.mem_getLast?_eq_getLast (Option.mem_def.mpr h)
  rw [heq]
  exact List.getLast_mem hne

/-- The loop's accumulated buffer is always an initial segment of the
stream. -/
theorem dashChunks_flatten_initial (s : List Char) :
    (dashChunks s).flatten <+: s := by
  induction s using dashChunks.induct with
  | case1 s h => rw [dashChunks_eq_none h]; simp
  | case2 s c r h ih =>
    rw [dashChunks_eq_some h, ← readStringDash_some_append h]
    obtain ⟨t, ht⟩ := ih
    simp only [List.flatten_cons]
    exact ⟨t, by rw [List.append_assoc, ht]⟩

/-- When the stream ends with `'-'` every byte is delivered in some
complete chunk: no data is lost to the final errored read. -/
theorem dashChunks_flatten_of_last {s : List Char}
    (h : s.getLast? = some '-') : (dashChunks s).flatten = s := by
  induction s using dashChunks.induct with
  | case1 s hnone =>
    exact absurd (mem_of_getLast?_eq h) (readStringDash_none hnone)
  | case2 s c r hsome ih =>
    rw [dashChunks_eq_some hsome]
    have happ := readStringDash_some_append hsome
    by_cases hrnil : r = []
    · subst hrnil
      rw [dashChunks_eq_none (show readStringDash [] = none from rfl)]
      simp at happ ⊢
      exact happ
    · have hrlast : r.getLast? = some '-' := by
        rw [← happ, List.getLast?_append_of_ne_nil _ hrnil] at h
        exact h
      simp only [List.flatten_cons, ih hrlast, happ]

/-- A chunk whose only `'-'` is its final byte cannot contain a
delimiter that has a `'-'` before its own last byte. -/
theorem no_infix_of_mid_dash {d c : List Char}
    (hmid : '-' ∈ d.dropLast) (hc : '-' ∉ c.dropLast) : ¬ d <:+: c := by
  intro hinf
  obtain ⟨u, v, huv⟩ := hinf
  have hdne : d ≠ [] := by
    intro hn; rw [hn] at hmid; simp at hmid
  rcases hv : v with _ | ⟨x, xs⟩
  · rw [hv] at huv
    simp at huv
    apply hc
    rw [← huv, List.dropLast_append_of_ne_nil _ hdne]
    exact List.mem_append_right u hmid
  · apply hc
    rw [← huv, hv, List.dropLast_append_of_ne_nil _ (by simp)]
    have : '-' ∈ d := (List.dropLast_sublist d).mem hmid
    refine List.mem_append_left _ ?_
    exact List.mem_append_right u this

/-- If the delimiter has a `'-'` before its last byte, the containment
check never fires and the loop consumes every complete chunk: it
terminates only through a read error (end of stream / deadline). -/
theorem readLoop_of_mid_dash {d : List Char} (hmid : '-' ∈ d.dropLast) :
    ∀ s acc : List Char, readLoop d s acc = acc ++ (dashChunks s).flatten := by
  intro s
  induction s using dashChunks.induct with
  | case1 s h =>
    intro acc
    rw [readLoop_eq_none h, dashChunks_eq_none h]
    simp
  | case2 s c r h ih =>
    intro acc
    have hnc : ¬ d <:+: c :=
      no_infix_of_mid_dash hmid (readStringDash_last h).2
    rw [readLoop_eq_some h, if_neg hnc, dashChunks_eq_some h, ih]
    simp

/-- When the delimiter never occurs in the stream at all, the
containment check never fires either. -/
theorem readLoop_of_no_occ {d : List Char} :
    ∀ s acc : List Char, ¬ d <:+: s →
      readLoop d s acc = acc ++ (dashChunks s).flatten := by
  intro s
  induction s using dashChunks.induct with
  | case1 s h =>
    intro acc _
    rw [readLoop_eq_none h, dashChunks_eq_none h]
    simp
  | case2 s c r h ih =>
    intro acc hno
    have happ := readStringDash_some_append h
    have hnc : ¬ d <:+: c := fun hdc =>
      hno (hdc.trans ((happ ▸ List.prefix_append c r : c <+: s).isInfix))
    have hnr : ¬ d <:+: r := fun hdr =>
      hno (hdr.trans ((happ ▸ List.suffix_append c r : r <:+ s).isInfix))
    rw [readLoop_eq_some h, if_neg hnc, dashChunks_eq_some h, ih _ hnr]
    simp

/-- `strings.ReplaceAll` is the identity on a string with no occurrence
of the pattern. -/
theorem replaceAllL_of_no_occ {d : List Char} :
    ∀ s : List Char, ¬ d <:+: s → replaceAllL d s = s := by
  intro s
  induction s with
  | nil => intro _; rw [replaceAllL]
  | cons a t ih =>
    intro hno
    rw [replaceAllL]
    rw [dif_neg]
    · rw [ih (fun hdt => hno (hdt.trans (List.suffix_cons a t).isInfix))]
    · rintro ⟨-, hpre⟩
      exact hno hpre.isInfix

/-- `strings.ReplaceAll` removes exactly the trailing delimiter when the
delimiter's only occurrence in `p ++ d` is the final one. -/
theorem replaceAllL_append_self {d : List Char} (hd : d ≠ []) :
    ∀ p : List Char, (∀ i, i < p.length → ¬ d <+: (p ++ d).drop i) →
      replaceAllL d (p ++ d) = p := by
  intro p
  induction p with
  | nil =>
    intro _
    simp only [List.nil_append]
    rcases d with _ | ⟨x, xs⟩
    · exact absurd rfl hd
    · rw [replaceAllL, dif_pos ⟨by simp, List.prefix_rfl⟩]
      rw [List.drop_length]
      rw [replaceAllL]
  | cons a p' ih =>
    intro honly
    have h0 : ¬ d <+: (a :: p') ++ d := by
      have := honly 0 (by simp)
      simpa using this
    rw [List.cons_append, replaceAllL, dif_neg (fun hcon => h0 hcon.2)]
    rw [ih (fun i hi => by
      have := honly (i + 1) (by simp; omega)
      simpa using this)]

/-- Every chunk the read loop sees ends with `'-'` and contains no other
`'-'`. -/
theorem dashChunks_mem_last {s c : List Char} (hc : c ∈ dashChunks s) :
    c.getLast? = some '-' ∧ '-' ∉ c.dropLast := by
  induction s using dashChunks.induct with
  | case1 s h => rw [dashChunks_eq_none h] at hc; simp at hc
  | case2 s c0 r h ih =>
    rw [dashChunks_eq_some h] at hc
    rcases List.mem_cons.mp hc with hcase | hcase
    · rw [hcase]; exact readStringDash_last h
    · exact ih hcase

theorem pulseClamp_bounds {cmin cmax : ℚ} (v : ℚ) (hrange : cmin ≤ cmax) :
    cmin ≤ pulseClamp cmin cmax v ∧ pulseClamp cmin cmax v ≤ cmax := by
  unfold pulseClamp
  dsimp only
  split_ifs <;> constructor <;> linarith

theorem pulseClamp_id {cmin cmax : ℚ} (v : ℚ) (h1 : cmin ≤ v)
    (h2 : v ≤ cmax) : pulseClamp cmin cmax v = v := by
  unfold pulseClamp
  dsimp only
  split_ifs <;> linarith

theorem pulseForce_getD (c : CubeM) {out : List ℚ} {i : Nat}
    (hlen : 3 ≤ out.length) (hi : i < 3) :
    (pulseForce c out).getD i 0 =
      pulseClamp c.clampMin c.clampMax (out.getD i 0) := by
  rcases out with _ | ⟨a, _ | ⟨b, _ | ⟨e, t⟩⟩⟩ <;> simp at hlen
  interval_cases i <;> simp [pulseForce, List.getD]

theorem updatePos_getD {old : List ℚ} {pos : List JValue} {i : Nat}
    (hold : old.length = 3) (hpos : pos.length = 3) (hi : i < 3) :
    (updatePos old pos).getD i 0 =
      updComp (old.getD i 0) (pos.getD i .null) := by
  rcases old with _ | ⟨a, _ | ⟨b, _ | ⟨e, t⟩⟩⟩ <;> simp at hold
  rcases pos with _ | ⟨x, _ | ⟨y, _ | ⟨z, u⟩⟩⟩ <;> simp at hpos
  subst hold
  subst hpos
  interval_cases i <;> simp [updatePos, List.getD]

/-- The retry loop runs at most 5 iterations. -/
theorem destroyGo_le (env : Nat → AttemptEnv) (a : Nat) :
    destroyGo env a ≤ 6 - a := by
  induction a using destroyGo.induct env with
  | case1 a h => rw [destroyGo, if_pos h]; omega
  | case2 a h hcubes =>
    rw [destroyGo, if_neg h, hcubes]
    show 1 ≤ 6 - a
    omega
  | case3 a h hcubes =>
    rw [destroyGo, if_neg h, hcubes]
    show 1 ≤ 6 - a
    omega
  | case4 a h x xs hcubes ih =>
    rw [destroyGo, if_neg h, hcubes]
    show 1 + destroyGo env (a + 1) ≤ 6 - a
    omega

/-- Against attempts that always produce a non-empty list, the loop runs
its full budget. -/
theorem destroyGo_exact (env : Nat → AttemptEnv) (a : Nat)
    (hne : ∀ k, a ≤ k → k ≤ 5 → nonemptyOutcomeB (env k) = true) :
    destroyGo env a = 6 - a := by
  induction a using destroyGo.induct env with
  | case1 a h => rw [destroyGo, if_pos h]; omega
  | case2 a h hcubes =>
    have := hne a (le_refl a) (by omega)
    simp [nonemptyOutcomeB, hcubes] at this
  | case3 a h hcubes =>
    have := hne a (le_refl a) (by omega)
    simp [nonemptyOutcomeB, hcubes] at this
  | case4 a h x xs hcubes ih =>
    rw [destroyGo, if_neg h, hcubes]
    show 1 + destroyGo env (a + 1) = 6 - a
    rw [ih (fun k hk h5 => hne k (by omega) h5)]
    omega

/-- If the first empty list appears at attempt `k` (every earlier
attempt listing cubes), the loop performs exactly the attempts
`a, …, k` and breaks. -/
theorem destroyGo_stop (env : Nat → AttemptEnv) (a k : Nat)
    (hak : a ≤ k) (hk5 : k ≤ 5)
    (hempty : emptyOutcomeB (env k) = true)
    (hne : ∀ j, a ≤ j → j < k → nonemptyOutcomeB (env j) = true) :
    destroyGo env a = k + 1 - a := by
  induction a using destroyGo.induct env with
  | case1 a h => omega
  | case2 a h hcubes =>
    by_cases hak' : a = k
    · rw [hak'] at hcubes
      simp [emptyOutcomeB, hcubes] at hempty
    · have := hne a (le_refl a) (by omega)
      simp [nonemptyOutcomeB, hcubes] at this
  | case3 a h hcubes =>
    by_cases hak' : a = k
    · rw [destroyGo, if_neg h, hcubes]
      show 1 = k + 1 - a
      omega
    · have := hne a (le_refl a) (by omega)
      simp [nonemptyOutcomeB, hcubes] at this
  | case4 a h x xs hcubes ih =>
    by_cases hak' : a = k
    · rw [hak'] at hcubes
      simp [emptyOutcomeB, hcubes] at hempty
    · rw [destroyGo, if_neg h, hcubes]
      show 1 + destroyGo env (a + 1) = k + 1 - a
      rw [ih (by omega) (fun j hj hjk => hne j (by omega) hjk)]
      omega

/-! ## Claim theorems -/

/-- Claim C1, counterexample.  The framing round-trip fails as stated:
with the delimiter `"END"` (which contains no `'-'`), the serialized
message `\x7b"type":"get_cube_list"\x7d` — nonempty, trim-stable, not
containing the delimiter — is sent, yet `readResponse` returns the empty
string, which parses to no JSON value at all, in particular not to the
message sent. -/
theorem framing_roundtrip_cex :
    pList ≠ [] ∧ trimL pList = pList ∧ ¬ dEnd <:+: pList ∧
      (readResponse dEnd (sendJSONMessage pList dEnd)).1 = [] := by
  refine ⟨by decide, by decide, by decide, ?_⟩
  unfold readResponse
  rw [readLoop_eq_none (by decide)]
  rw [replaceAllL]
  rfl

/-- Claim C1, amended.  The framing round-trip does hold for delimiters
shaped like the protocol's `"<???DONE???---"` — final byte `'-'` and a
`'-'` before the last byte — provided the payload is trim-stable and the
delimiter's only occurrence in payload ++ delimiter is the trailing one:
reading the bytes written by `sendJSONMessage` returns exactly the
serialized payload (hence a string parsing to the original message). -/
theorem framing_roundtrip_amended (d p : List Char)
    (hend : d.getLast? = some '-')
    (hmid : '-' ∈ d.dropLast)
    (honly : ∀ i, i < p.length → ¬ d <+: (p ++ d).drop i)
    (htrim : trimL p = p) :
    readResponse d (sendJSONMessage p d) = (p, none) := by
  have hdne : d ≠ [] := by
    intro hn; rw [hn] at hend; simp at hend
  unfold readResponse sendJSONMessage
  rw [readLoop_of_mid_dash hmid]
  simp only [List.nil_append]
  rw [dashChunks_flatten_of_last
    (by rw [List.getLast?_append_of_ne_nil _ hdne]; exact hend)]
  rw [replaceAllL_append_self hdne p honly, htrim]

/-- Witness for the amended C1 at the example protocol's delimiter and
the serialized `get_cube_list` message. -/
theorem framing_roundtrip_amended_witness :
    readResponse dProto (sendJSONMessage pList dProto) = (pList, none) :=
  framing_roundtrip_amended dProto pList (by decide) (by decide)
    (by decide) (by decide)

/-- Claim C2.  `readResponse` returns a `nil` error on every input, and
on a stream in which the delimiter never appears it returns the
accumulated partial buffer (every complete `'-'`-terminated chunk, the
delimiter trivially removed) with whitespace trimmed, as a success. -/
theorem truncated_receive_success :
    (∀ d s : List Char, (readResponse d s).2 = none)
    ∧ (∀ d s : List Char, ¬ d <:+: s →
        readResponse d s = (trimL ((dashChunks s).flatten), none)) := by
  constructor
  · intro d s; rfl
  · intro d s hno
    unfold readResponse
    rw [readLoop_of_no_occ s [] hno]
    simp only [List.nil_append]
    rw [replaceAllL_of_no_occ _
      (fun hin => hno (hin.trans (dashChunks_flatten_initial s).isInfix))]

/-- Witness for C2: a stream with no delimiter occurrence. -/
theorem truncated_receive_success_witness :
    ¬ dProto <:+: "hello-world".data ∧
      readResponse dProto "hello-world".data =
        (trimL ((dashChunks "hello-world".data).flatten), none) :=
  ⟨by decide, truncated_receive_success.2 dProto "hello-world".data (by decide)⟩

/-- Claim C3.  With a valid clamp range, each of the first three
decision-function output components sent by `pulseWithModel` in the
`apply_force` command is clamped into `[clampMin, clampMax]`, and a
component already inside the range is sent unchanged. -/
theorem pulse_clamp_correct (env : NetEnv) (model : List ℚ → List ℚ)
    (c : CubeM) (k : Nat) (hconn : c.conn = some k)
    (hlen : 3 ≤ (model (c.position.take 3)).length)
    (hrange : c.clampMin ≤ c.clampMax) :
    (pulseWithModel env model c).2.head? =
      some (.send (.applyForce (pulseForce c (model (c.position.take 3)))))
    ∧ ∀ i, i < 3 →
        (c.clampMin ≤ (pulseForce c (model (c.position.take 3))).getD i 0
          ∧ (pulseForce c (model (c.position.take 3))).getD i 0 ≤ c.clampMax)
        ∧ (c.clampMin ≤ (model (c.position.take 3)).getD i 0 →
            (model (c.position.take 3)).getD i 0 ≤ c.clampMax →
            (pulseForce c (model (c.position.take 3))).getD i 0 =
              (model (c.position.take 3)).getD i 0) := by
  constructor
  · unfold pulseWithModel
    rw [hconn]
    dsimp only
    rw [if_neg (by omega)]
    cases henv : env.sendApplyForceOk
    · simp
    · rcases href : refreshPosition env c with ⟨r, t⟩
      simp
  · intro i hi
    rw [pulseForce_getD c hlen hi]
    exact ⟨pulseClamp_bounds _ hrange, fun h1 h2 => pulseClamp_id _ h1 h2⟩

/-- Witness for C3: clamp range `[-20, 20]`, raw output `[25, -25, 5, 9]`;
component 2 (value 5) is inside the range. -/
theorem pulse_clamp_correct_witness :
    (cubeConn.clampMin ≤
        (pulseForce cubeConn (modelEx (cubeConn.position.take 3))).getD 0 0
      ∧ (pulseForce cubeConn (modelEx (cubeConn.position.take 3))).getD 0 0 ≤
        cubeConn.clampMax)
    ∧ (cubeConn.clampMin ≤ (modelEx (cubeConn.position.take 3)).getD 2 0 →
        (modelEx (cubeConn.position.take 3)).getD 2 0 ≤ cubeConn.clampMax →
        (pulseForce cubeConn (modelEx (cubeConn.position.take 3))).getD 2 0 =
          (modelEx (cubeConn.position.take 3)).getD 2 0) :=
  ⟨((pulse_clamp_correct envOk modelEx cubeConn 0 rfl (by decide)
      (by decide)).2 0 (by decide)).1,
   ((pulse_clamp_correct envOk modelEx cubeConn 0 rfl (by decide)
      (by decide)).2 2 (by decide)).2⟩

/-- Claim C4, counterexample.  When the `spawn_cube` write fails, `Spawn`
closes the connection it opened but has already stored it in `c.conn`
and never resets the field: the failed entity is left owning a (closed)
connection, not `Unspawned` with no connection. -/
theorem spawn_failure_cex :
    (spawn ⟨true, true, false⟩ 0 cubeEx).res = .error .sendFailed
    ∧ (spawn ⟨true, true, false⟩ 0 cubeEx).closed = true
    ∧ (spawn ⟨true, true, false⟩ 0 cubeEx).cube.conn = some 0 :=
  ⟨rfl, rfl, rfl⟩

/-- Claim C4, amended.  Whenever `spawn` fails on a previously
unspawned cube, any connection it opened it also closed; after a connect
or auth-write failure the cube owns no connection, but after a
`spawn_cube` write failure the cube retains the reference to the
now-closed connection. -/
theorem spawn_failure_amended (env : SpawnEnv) (k : Nat) (c : CubeM)
    (hc : c.conn = none) (hfail : (spawn env k c).res ≠ .ok ()) :
    ((spawn env k c).opened = true → (spawn env k c).closed = true)
    ∧ ((spawn env k c).cube.conn = none
        ∨ ((spawn env k c).cube.conn = some k
            ∧ (spawn env k c).closed = true)) := by
  rcases env with ⟨d1, a1, s1⟩
  cases d1 <;> cases a1 <;> cases s1 <;>
    simp [spawn] at hfail ⊢ <;> simp [hc]

/-- Witness for the amended C4 at a failing `spawn_cube` write. -/
theorem spawn_failure_amended_witness :
    ((spawn ⟨true, true, false⟩ 0 cubeEx).opened = true →
      (spawn ⟨true, true, false⟩ 0 cubeEx).closed = true)
    ∧ ((spawn ⟨true, true, false⟩ 0 cubeEx).cube.conn = none
        ∨ ((spawn ⟨true, true, false⟩ 0 cubeEx).cube.conn = some 0
            ∧ (spawn ⟨true, true, false⟩ 0 cubeEx).closed = true)) :=
  spawn_failure_amended ⟨true, true, false⟩ 0 cubeEx rfl (by decide)

/-- Claim C5, counterexample.  A successfully despawned (Terminated)
cube still holds its owned connection — `Despawn` never clears `conn` —
so a subsequent pulse or refresh does not fail with a no-connection
error and does perform network I/O. -/
theorem no_connection_guard_cex :
    (despawnCube ⟨true, true, true⟩ cubeConn).1 = .ok cubeConn
    ∧ (pulseWithModel envOk modelEx cubeConn).1 ≠ .error .noConnection
    ∧ (pulseWithModel envOk modelEx cubeConn).2 ≠ []
    ∧ (refreshPosition envOk cubeConn).1 ≠ .error .noConnection
    ∧ (refreshPosition envOk cubeConn).2 ≠ [] :=
  ⟨rfl, by decide, by decide, by decide, by decide⟩

/-- Claim C5, amended.  For every cube whose owned connection is absent
(`conn = none` — never spawned, or spawn failed before the connection
was stored), both `pulseWithModel` and `refreshPosition` fail
immediately with the no-connection error and perform no network I/O;
despawning does not put a cube into this state. -/
theorem no_connection_guard_amended (env : NetEnv)
    (model : List ℚ → List ℚ) (c : CubeM) (hc : c.conn = none) :
    pulseWithModel env model c = (.error .noConnection, [])
    ∧ refreshPosition env c = (.error .noConnection, []) := by
  refine ⟨?_, ?_⟩
  · unfold pulseWithModel
    rw [hc]
  · unfold refreshPosition
    rw [hc]

/-- Witness for the amended C5 on an unspawned cube. -/
theorem no_connection_guard_amended_witness :
    pulseWithModel envOk modelEx cubeEx = (.error .noConnection, [])
    ∧ refreshPosition envOk cubeEx = (.error .noConnection, []) :=
  no_connection_guard_amended envOk modelEx cubeEx rfl

/-- Claim C6.  After every successful `spawn` of a cube named `X`, the
cube's name is `X ++ "_BASE"` and it owns exactly the connection opened
by that spawn (which was not closed). -/
theorem spawn_rename (env : SpawnEnv) (k : Nat) (c : CubeM)
    (hok : (spawn env k c).res = .ok ()) :
    (spawn env k c).cube.name = c.name ++ "_BASE"
    ∧ (spawn env k c).cube.conn = some k
    ∧ (spawn env k c).opened = true
    ∧ (spawn env k c).closed = false := by
  rcases env with ⟨d1, a1, s1⟩
  cases d1 <;> cases a1 <;> cases s1 <;> simp [spawn] at hok ⊢

/-- Witness for C6 on the example cube. -/
theorem spawn_rename_witness :
    (spawn ⟨true, true, true⟩ 5 cubeEx).cube.name = cubeEx.name ++ "_BASE"
    ∧ (spawn ⟨true, true, true⟩ 5 cubeEx).cube.conn = some 5
    ∧ (spawn ⟨true, true, true⟩ 5 cubeEx).opened = true
    ∧ (spawn ⟨true, true, true⟩ 5 cubeEx).closed = false :=
  spawn_rename ⟨true, true, true⟩ 5 cubeEx rfl

/-- Claim C7.  `destroyAttempts` performs at most 5 list-then-despawn
attempts; it breaks out of the whole retry loop at the first attempt
whose cube list parses empty; and against a server always returning a
well-formed, non-empty list it performs exactly 5 attempts and stops. -/
theorem destroy_retry (denv : DialEnv) (env : Nat → AttemptEnv) :
    destroyAttempts denv env ≤ 5
    ∧ (denv.dialOk = true → denv.authWriteOk = true →
        ∀ k, 1 ≤ k → k ≤ 5 → emptyOutcomeB (env k) = true →
          (∀ j, 1 ≤ j → j < k → nonemptyOutcomeB (env j) = true) →
          destroyAttempts denv env = k)
    ∧ (denv.dialOk = true → denv.authWriteOk = true →
        (∀ k, 1 ≤ k → k ≤ 5 → nonemptyOutcomeB (env k) = true) →
          destroyAttempts denv env = 5) := by
  refine ⟨?_, ?_, ?_⟩
  · unfold destroyAttempts
    split_ifs
    · have := destroyGo_le env 1; omega
    · omega
    · omega
  · intro hd ha k h1 h5 hemp hne
    unfold destroyAttempts
    rw [if_pos hd, if_pos ha]
    rw [destroyGo_stop env 1 k h1 h5 hemp hne]
    omega
  · intro hd ha hne
    unfold destroyAttempts
    rw [if_pos hd, if_pos ha]
    rw [destroyGo_exact env 1 (fun k hk h5 => hne k hk h5)]

/-- Witness for C7 against a server that always lists one cube. -/
theorem destroy_retry_witness :
    destroyAttempts ⟨true, true⟩ (fun _ => attemptNonempty) = 5 :=
  (destroy_retry ⟨true, true⟩ (fun _ => attemptNonempty)).2.2 rfl rfl
    (fun _ _ _ => by decide)

/-- Claim C9.  For every delimiter with a `'-'` before its last byte, no
chunk the read loop sees can contain the delimiter, so the loop
terminates only through a read error (end of stream / deadline) after
consuming every complete chunk — and the returned string still has all
delimiter occurrences removed. -/
theorem delimiter_mid_dash_detection (d : List Char)
    (hmid : '-' ∈ d.dropLast) :
    (∀ s : List Char, ∀ c ∈ dashChunks s, ¬ d <:+: c)
    ∧ (∀ s acc : List Char, readLoop d s acc = acc ++ (dashChunks s).flatten)
    ∧ (∀ s : List Char, readResponse d s =
        (trimL (replaceAllL d ((dashChunks s).flatten)), none)) := by
  refine ⟨?_, readLoop_of_mid_dash hmid, ?_⟩
  · intro s c hc
    exact no_infix_of_mid_dash hmid (dashChunks_mem_last hc).2
  · intro s
    unfold readResponse
    rw [readLoop_of_mid_dash hmid s []]
    simp only [List.nil_append]

/-- Witness for C9 at the example protocol's delimiter. -/
theorem delimiter_mid_dash_detection_witness :
    readResponse dProto "ok-".data =
      (trimL (replaceAllL dProto ((dashChunks "ok-".data).flatten)), none) :=
  (delimiter_mid_dash_detection dProto (by decide)).2.2 "ok-".data

/-- Claim C10.  When the parsed `get_cube_state` response carries a
`position` array of exactly 3 entries, `refreshPosition` succeeds even
if some entries are not numbers: numeric entries overwrite the local
component, non-numeric entries leave it unchanged. -/
theorem refresh_leniency (env : NetEnv) (c : CubeM) (k : Nat)
    (state : List (String × JValue)) (pos : List JValue)
    (hconn : c.conn = some k) (hsend : env.sendStateReqOk = true)
    (hparse : env.stateParse = some state)
    (hpos : lookupJ "position" state = some (.arr pos))
    (hlen : pos.length = 3) (hclen : c.position.length = 3) :
    refreshPosition env c =
      (.ok { c with position := updatePos c.position pos },
        [.send .getCubeState, .recv])
    ∧ (∀ i, i < 3 → (∀ q : ℚ, pos.getD i .null ≠ .num q) →
        (updatePos c.position pos).getD i 0 = c.position.getD i 0)
    ∧ (∀ i, i < 3 → ∀ q : ℚ, pos.getD i .null = .num q →
        (updatePos c.position pos).getD i 0 = q) := by
  refine ⟨?_, ?_, ?_⟩
  · simp [refreshPosition, hconn, hsend, hparse, hpos, hlen]
  · intro i hi hnn
    rw [updatePos_getD hclen hlen hi]
    cases hp : pos.getD i JValue.null <;> simp [updComp]
    exact absurd hp (hnn _)
  · intro i hi q hq
    rw [updatePos_getD hclen hlen hi, hq]
    rfl

/-- Witness for C10: response position `[5, "x", 7]`; the middle
component is non-numeric and stays at its local value. -/
theorem refresh_leniency_witness :
    refreshPosition envMixed cubeConn =
      (.ok { cubeConn with position := updatePos cubeConn.position posMixed },
        [.send .getCubeState, .recv])
    ∧ (updatePos cubeConn.position posMixed).getD 1 0 =
        cubeConn.position.getD 1 0 := by
  have h := refresh_leniency envMixed cubeConn 0 stateMixed posMixed
    rfl rfl rfl rfl (by decide) (by decide)
  exact ⟨h.1, h.2.1 1 (by decide) (fun q hq => JValue.noConfusion hq)⟩

end Construct
